import Mathlib

/-!
Verification of the photo-manipulation transform library
(src/project 14_photo_manipulation/photo_manipulation.py).

The image model: a pixel is a triple of unsigned 8-bit samples in the
internal channel order (B, G, R), as produced by cv2.imdecode; an image is a
list of rows of pixels. Samples are Nat with the invariant that they are at
most 255. OpenCV primitives used by the source (cv2.add, cv2.subtract,
cv2.bitwise_not, cv2.addWeighted, cv2.split, cv2.merge, cv2.cvtColor,
cv2.filter2D, cv2.GaussianBlur) are embedded element-wise from their
documented semantics: saturating unsigned 8-bit arithmetic, with real-valued
intermediates rounded by cvRound (round half to even) and saturated to
[0, 255].
-/

namespace PhotoManip

/-- One color pixel, internal channel order (B, G, R), as cv2 decodes it. -/
abbrev Pix3 := Nat × Nat × Nat

/-- Three-channel image buffer: rows of (B, G, R) pixels. -/
abbrev Img3 := List (List Pix3)

/-- Single-channel image buffer (e.g. the output of grayscale). -/
abbrev Img1 := List (List Nat)

/-- Saturate an integer to the unsigned 8-bit range [0, 255]. -/
def clamp255 (x : Int) : Nat := (min (max x 0) 255).toNat

/-- OpenCV cvRound: round a real (modelled as a rational) to the nearest
integer, ties to even. -/
def cvRound (q : ℚ) : Int :=
  let f := ⌊q⌋
  if q - f < 1/2 then f
  else if 1/2 < q - f then f + 1
  else if f % 2 = 0 then f else f + 1

/-- OpenCV saturate_cast of a real intermediate to uint8: round, then clamp. -/
def satCastQ (q : ℚ) : Nat := clamp255 (cvRound q)

/-- A pixel is valid when each sample fits in an unsigned 8-bit cell. -/
def validPix (p : Pix3) : Prop := p.1 ≤ 255 ∧ p.2.1 ≤ 255 ∧ p.2.2 ≤ 255

instance : DecidablePred validPix := fun p => by unfold validPix; infer_instance

/-- An image is valid when every sample fits in an unsigned 8-bit cell. -/
def Img3.valid (img : Img3) : Prop := ∀ row ∈ img, ∀ p ∈ row, validPix p

instance (img : Img3) : Decidable img.valid := by unfold Img3.valid; infer_instance

/-- Apply a function to every pixel of a 3-channel image (the element-wise
view of the whole-array numpy and cv2 operations in the source). -/
def mapPixels (f : Pix3 → Pix3) (img : Img3) : Img3 := img.map (List.map f)

/-- Height and per-row widths of a buffer. -/
def dims (img : List (List α)) : Nat × List Nat := (img.length, img.map List.length)

/-- cv2.add of a uint8 array and a nonnegative scalar: saturating addition. -/
def cvAdd (x d : Nat) : Nat := min (x + d) 255

/-- cv2.subtract of a uint8 array and a nonnegative scalar: saturating
subtraction (Nat subtraction already truncates at 0). -/
def cvSub (x d : Nat) : Nat := x - d

/-- cv2.bitwise_not on a uint8 sample x (x at most 255): complement 255 - x. -/
def bitwiseNot (x : Nat) : Nat := 255 - x

/-- cv2.addWeighted(src1, alpha, src2, beta, gamma): per sample
saturate_cast(round(alpha * x1 + beta * x2 + gamma)). -/
def addWeighted (src1 : Img3) (alpha : ℚ) (src2 : Img3) (beta gamma : ℚ) : Img3 :=
  List.zipWith (fun r1 r2 => List.zipWith (fun p q =>
    (satCastQ (alpha * p.1 + beta * q.1 + gamma),
     satCastQ (alpha * p.2.1 + beta * q.2.1 + gamma),
     satCastQ (alpha * p.2.2 + beta * q.2.2 + gamma))) r1 r2) src1 src2

/-- OpenCV pixel conversion BGR to HSV for 8-bit images (cv2.COLOR_BGR2HSV):
V = max(R,G,B); S = 255 * (V - min) / V rounded (0 when V = 0); H = hue in
degrees halved to fit [0, 180], rounded. Result triple is (H, S, V). -/
def bgr2hsvPix (p : Pix3) : Pix3 :=
  let b := p.1
  let g := p.2.1
  let r := p.2.2
  let v := max r (max g b)
  let m := min r (min g b)
  let s := if v = 0 then 0 else satCastQ (255 * (((v : ℚ) - m) / v))
  let hdeg : ℚ :=
    if v = m then 0
    else if v = r then 60 * (((g : ℚ) - b) / ((v : ℚ) - m))
    else if v = g then 120 + 60 * (((b : ℚ) - r) / ((v : ℚ) - m))
    else 240 + 60 * (((r : ℚ) - g) / ((v : ℚ) - m))
  let hpos : ℚ := if hdeg < 0 then hdeg + 360 else hdeg
  ((cvRound (hpos / 2)).toNat, s, v)

/-- OpenCV pixel conversion HSV to BGR for 8-bit images (cv2.COLOR_HSV2BGR):
the standard sector decomposition of the hue circle, with S and V rescaled
from [0,255], and the resulting (R,G,B) stored in internal (B,G,R) order. -/
def hsv2bgrPix (p : Pix3) : Pix3 :=
  let h := p.1
  let s := p.2.1
  let v := p.2.2
  if s = 0 then (v, v, v) else
  let hdeg : ℚ := 2 * h
  let sector : Int := ⌊hdeg / 60⌋
  let i : Nat := (sector % 6).toNat
  let f : ℚ := hdeg / 60 - sector
  let vq : ℚ := v
  let sq : ℚ := (s : ℚ) / 255
  let pq := vq * (1 - sq)
  let qq := vq * (1 - sq * f)
  let tq := vq * (1 - sq * (1 - f))
  let rgb : ℚ × ℚ × ℚ :=
    if i = 0 then (vq, tq, pq)
    else if i = 1 then (qq, vq, pq)
    else if i = 2 then (pq, vq, tq)
    else if i = 3 then (pq, qq, vq)
    else if i = 4 then (tq, pq, vq)
    else (vq, pq, qq)
  (satCastQ rgb.2.2, satCastQ rgb.2.1, satCastQ rgb.1)

/-- cv2.cvtColor(image, cv2.COLOR_BGR2HSV): per-pixel conversion. -/
def cvtColorBGR2HSV (img : Img3) : Img3 := mapPixels bgr2hsvPix img

/-- cv2.cvtColor(image, cv2.COLOR_HSV2BGR): per-pixel conversion. -/
def cvtColorHSV2BGR (img : Img3) : Img3 := mapPixels hsv2bgrPix img

/-- The positive-brightness branch of adjust_brightness acting on one value
sample: the two sequential numpy masked assignments
v[v > lim] = 255 and then v[v <= lim] += brightness, with lim = 255 -
brightness; the unguarded += is uint8 arithmetic, so it is embedded as
addition modulo 256. -/
def brightStepPos (brightness : Int) (v : Nat) : Nat :=
  let lim : Int := 255 - brightness
  let v1 : Nat := if lim < (v : Int) then 255 else v
  if (v1 : Int) ≤ lim then ((((v1 : Int) + brightness) % 256)).toNat else v1

/-- The negative-brightness branch of adjust_brightness acting on one value
sample: with m = -brightness, the masked assignments v[v < m] = 0 and then
v[v >= m] -= m; the unguarded -= is uint8 arithmetic, embedded as
subtraction modulo 256. -/
def brightStepNeg (m : Int) (v : Nat) : Nat :=
  let v1 : Nat := if (v : Int) < m then 0 else v
  if m ≤ (v1 : Int) then ((((v1 : Int) - m) % 256)).toNat else v1

/-- The full per-sample action of adjust_brightness on the value channel. -/
def brightMapV (brightness : Int) (v : Nat) : Nat :=
  if 0 < brightness then brightStepPos brightness v else brightStepNeg (-brightness) v

/-- The final_hsv buffer built inside adjust_brightness: split the HSV
conversion of the input into h, s, v, transform the value channel, and
cv2.merge the three channels back. -/
def brightnessFinalHSV (img : Img3) (brightness : Int) : Img3 :=
  mapPixels (fun p => (p.1, p.2.1, brightMapV brightness p.2.2)) (cvtColorBGR2HSV img)

/-- adjust_brightness from the source: when brightness is nonzero, convert
BGR to HSV, adjust the value channel, and convert back. -/
def adjust_brightness (img : Img3) (brightness : Int) : Img3 :=
  if brightness ≠ 0 then cvtColorHSV2BGR (brightnessFinalHSV img brightness) else img

/-- The contrast factor f = 131 * (contrast + 127) / (127 * (131 - contrast))
computed by adjust_contrast. -/
def contrastF (contrast : Int) : ℚ :=
  131 * ((contrast : ℚ) + 127) / (127 * (131 - (contrast : ℚ)))

/-- adjust_contrast from the source: when contrast is nonzero, compute f and
call cv2.addWeighted(image, f, image, 0, 127 * (1 - f)). The division is
Python integer-operand division, which raises ZeroDivisionError when the
denominator 127 * (131 - contrast) is zero; that failure is embedded as
none. -/
def adjust_contrast (img : Img3) (contrast : Int) : Option Img3 :=
  if contrast ≠ 0 then
    if (131 : Int) - contrast = 0 then none
    else
      let f := contrastF contrast
      some (addWeighted img f img 0 (127 * (1 - f)))
  else some img

/-- Per-channel delta of adjust_rgb_channels: cv2.add for a positive delta,
cv2.subtract of the absolute value for a negative delta, unchanged at 0. -/
def adjChan (d : Int) (x : Nat) : Nat :=
  if 0 < d then cvAdd x d.toNat
  else if d < 0 then cvSub x (-d).toNat
  else x

/-- adjust_rgb_channels from the source: cv2.split into b, g, r planes,
adjust each by its delta, cv2.merge back in (B, G, R) order. -/
def adjust_rgb_channels (img : Img3) (red green blue : Int) : Img3 :=
  mapPixels (fun p => (adjChan blue p.1, adjChan green p.2.1, adjChan red p.2.2)) img

/-- One grayscale sample from a (B, G, R) pixel, as cv2.COLOR_BGR2GRAY
computes it: Y = 0.299 R + 0.587 G + 0.114 B, rounded and saturated. -/
def grayPix (p : Pix3) : Nat :=
  satCastQ ((299 / 1000) * (p.2.2 : ℚ) + (587 / 1000) * (p.2.1 : ℚ) + (114 / 1000) * (p.1 : ℚ))

/-- apply_grayscale from the source: cv2.cvtColor(image, cv2.COLOR_BGR2GRAY),
a single-channel buffer of luma samples. -/
def apply_grayscale (img : Img3) : Img1 := img.map (List.map grayPix)

/-- apply_negative from the source: cv2.bitwise_not of every sample. -/
def apply_negative (img : Img3) : Img3 :=
  mapPixels (fun p => (bitwiseNot p.1, bitwiseNot p.2.1, bitwiseNot p.2.2)) img

/-- apply_warm from the source: split b, g, r; r = cv2.add(r, 10);
b = cv2.subtract(b, 10); merge. -/
def apply_warm (img : Img3) : Img3 :=
  mapPixels (fun p => (cvSub p.1 10, p.2.1, cvAdd p.2.2 10)) img

/-- apply_cool from the source: split b, g, r; b = cv2.add(b, 10);
r = cv2.subtract(r, 10); merge. -/
def apply_cool (img : Img3) : Img3 :=
  mapPixels (fun p => (cvAdd p.1 10, p.2.1, cvSub p.2.2 10)) img

/-- OpenCV borderInterpolate with BORDER_REFLECT_101 (the default border of
filter2D and GaussianBlur): reflect an out-of-range index across the edges
without repeating the edge sample; a length-1 axis always resolves to 0. -/
def borderReflect101 (n : Nat) (i : Int) : Nat :=
  if n ≤ 1 then 0
  else
    let m := (i.emod (2 * ((n : Int) - 1))).toNat
    if m < n then m else 2 * (n - 1) - m

/-- One output sample position of a 2D correlation with kernel kern anchored
at its center, BORDER_REFLECT_101 edges, computed per channel and
saturate_cast back to uint8, as cv2.filter2D does on uint8 input. -/
def convAt (kern : List (List ℚ)) (img : Img3) (y x : Nat) : Pix3 :=
  let kh := kern.length
  let kw := (kern.headD []).length
  let ay := kh / 2
  let ax := kw / 2
  let tap := fun (sel : Pix3 → Nat) (i j : Nat) =>
    let yy := borderReflect101 img.length ((y : Int) + (i : Int) - (ay : Int))
    let row := img.getD yy []
    let xx := borderReflect101 row.length ((x : Int) + (j : Int) - (ax : Int))
    ((kern.getD i []).getD j 0) * ((sel (row.getD xx (0, 0, 0)) : Nat) : ℚ)
  let chan := fun (sel : Pix3 → Nat) =>
    satCastQ (((List.range kh).map (fun i =>
      ((List.range kw).map (fun j => tap sel i j)).sum)).sum)
  (chan (·.1), chan (·.2.1), chan (·.2.2))

/-- 2D correlation of every position of the image with a kernel, per channel:
the common core of cv2.filter2D and the embedded cv2.GaussianBlur. Output
row y, column x corresponds to input row y, column x, so the spatial shape
is preserved. -/
def conv2D (kern : List (List ℚ)) (img : Img3) : Img3 :=
  (List.range img.length).map (fun y =>
    (List.range ((img.getD y []).length)).map (fun x => convAt kern img y x))

/-- cv2.filter2D(image, -1, kernel): spatial correlation of each channel with
the kernel, center anchor, reflect-101 border, saturate_cast to uint8. -/
def filter2D (img : Img3) (kern : List (List ℚ)) : Img3 := conv2D kern img

/-- The kernel array built inside apply_sepia, rows exactly as written in
the source. -/
def sepiaKernel : List (List ℚ) :=
  [[272 / 1000, 534 / 1000, 131 / 1000],
   [349 / 1000, 686 / 1000, 168 / 1000],
   [393 / 1000, 769 / 1000, 189 / 1000]]

/-- apply_sepia from the source: cv2.filter2D(image, -1, kernel) with the
3x3 sepia kernel. Note this is a spatial convolution of each channel with
the kernel, not a per-pixel color-space transform. -/
def apply_sepia (img : Img3) : Img3 := filter2D img sepiaKernel

/-- The 1D Gaussian coefficient vector of cv2.getGaussianKernel for
sigma = 0. For odd sizes up to 7, OpenCV uses exactly these fixed
small-kernel tables. For larger sizes OpenCV derives double-precision
weights from sigma = 0.3*((ksize-1)*0.5 - 1) + 0.8, which have no exact
rational form; a uniform surrogate stands in for them here, and no theorem
in this file depends on the weight values. -/
def gaussianKernel1D (k : Nat) : List ℚ :=
  if k = 1 then [1]
  else if k = 3 then [1/4, 1/2, 1/4]
  else if k = 5 then [1/16, 1/4, 3/8, 1/4, 1/16]
  else if k = 7 then [1/32, 7/64, 7/32, 9/32, 7/32, 7/64, 1/32]
  else List.replicate k ((1 : ℚ) / k)

/-- cv2.GaussianBlur(image, (k, k), 0): separable Gaussian smoothing with a
k x k kernel and sigma derived from the kernel size, embedded as one 2D
correlation with the outer product of the 1D coefficient vector. -/
def gaussianBlur (img : Img3) (k : Nat) : Img3 :=
  conv2D ((gaussianKernel1D k).map (fun a => (gaussianKernel1D k).map (fun b => a * b))) img

/-- apply_blur from the source: no-op when blur is 0; otherwise promote an
even radius to the next odd value and call cv2.GaussianBlur with that
kernel size and sigma 0. -/
def apply_blur (img : Img3) (blur : Nat) : Img3 :=
  if 0 < blur then
    let k := if blur % 2 = 1 then blur else blur + 1
    gaussianBlur img k
  else img

/-- The result of the effect stage of main: grayscale yields a
single-channel buffer, every other path a 3-channel buffer. -/
inductive Buffer where
  | color (img : Img3)
  | gray (img : Img1)
deriving DecidableEq

/-- The effect dispatch in main: the if/elif chain over the five checkbox
booleans, applied to the adjusted buffer. -/
def applyEffects (grayscale sepia negative warm cool : Bool) (img : Img3) : Buffer :=
  if grayscale then Buffer.gray (apply_grayscale img)
  else if sepia then Buffer.color (apply_sepia img)
  else if negative then Buffer.color (apply_negative img)
  else if warm then Buffer.color (apply_warm img)
  else if cool then Buffer.color (apply_cool img)
  else Buffer.color img

/-- The tagged effect choice of the spec (section 3 and section 9). -/
inductive Effect where
  | none
  | grayscale
  | sepia
  | negative
  | warm
  | cool
deriving DecidableEq

/-- Spec-side selector: first-true-wins priority
grayscale, sepia, negative, warm, cool over the five booleans. -/
def selectEffect (g s n w c : Bool) : Effect :=
  if g then .grayscale
  else if s then .sepia
  else if n then .negative
  else if w then .warm
  else if c then .cool
  else .none

/-- Apply a single selected effect (or no effect) to a buffer. -/
def applyEffect : Effect → Img3 → Buffer
  | .none, img => .color img
  | .grayscale, img => .gray (apply_grayscale img)
  | .sepia, img => .color (apply_sepia img)
  | .negative, img => .color (apply_negative img)
  | .warm, img => .color (apply_warm img)
  | .cool, img => .color (apply_cool img)

/-- Spec-side per-sample brightness map: for positive amount, a value sample
above 255 - amount saturates to 255, otherwise amount is added; for
negative amount with m = -amount, a value sample below m saturates to 0,
otherwise m is subtracted. -/
def specBrightMap (amount : Int) (v : Nat) : Nat :=
  if 0 < amount then (if 255 - amount < (v : Int) then 255 else v + amount.toNat)
  else (if (v : Int) < -amount then 0 else v - (-amount).toNat)

/-- Spec-side contrast stretch: every sample x maps to
clamp(f * x + 127 * (1 - f)) with f the contrast factor. -/
def contrastSpecStretch (img : Img3) (amount : Int) : Img3 :=
  let f := contrastF amount
  mapPixels (fun p =>
    (satCastQ (f * p.1 + 127 * (1 - f)),
     satCastQ (f * p.2.1 + 127 * (1 - f)),
     satCastQ (f * p.2.2 + 127 * (1 - f)))) img

/-- Spec-side sepia: the fixed 3x3 color-mixing matrix applied per pixel to
the (R, G, B) sample vector, rows producing output R, G, B, stored back in
internal (B, G, R) order, each output sample saturated to [0, 255]. -/
def sepiaSpecMatrix (img : Img3) : Img3 :=
  mapPixels (fun p =>
    let b : ℚ := p.1
    let g : ℚ := p.2.1
    let r : ℚ := p.2.2
    let rOut := satCastQ ((393/1000) * r + (769/1000) * g + (189/1000) * b)
    let gOut := satCastQ ((349/1000) * r + (686/1000) * g + (168/1000) * b)
    let bOut := satCastQ ((272/1000) * r + (534/1000) * g + (131/1000) * b)
    (bOut, gOut, rOut)) img

lemma zipWith_self (f : α → α → β) (l : List α) :
    List.zipWith f l l = l.map (fun a => f a a) := by
  induction l with
  | nil => rfl
  | cons a t ih => simp [List.zipWith_cons_cons, ih]

lemma mapPixels_congr {f g : Pix3 → Pix3} {img : Img3}
    (h : ∀ row ∈ img, ∀ p ∈ row, f p = g p) : mapPixels f img = mapPixels g img :=
  List.map_congr_left fun row hrow => List.map_congr_left fun p hp => h row hrow p hp

lemma mapPixels_eq_self {f : Pix3 → Pix3} {img : Img3}
    (h : ∀ row ∈ img, ∀ p ∈ row, f p = p) : mapPixels f img = img := by
  unfold mapPixels
  induction img with
  | nil => rfl
  | cons row rest ih =>
    simp only [List.map_cons, List.cons.injEq]
    constructor
    · exact List.map_congr_left (fun p hp => h row (List.mem_cons_self row rest) p hp)
        |>.trans (List.map_id row)
    · exact ih fun r hr p hp => h r (List.mem_cons_of_mem row hr) p hp

lemma mapPixels_mapPixels (f g : Pix3 → Pix3) (img : Img3) :
    mapPixels f (mapPixels g img) = mapPixels (fun p => f (g p)) img := by
  simp [mapPixels, List.map_map, Function.comp_def]

lemma dims_map_map (f : α → β) (img : List (List α)) :
    dims (img.map (List.map f)) = dims img := by
  simp [dims, List.map_map, Function.comp_def]

/-- C2: for every buffer and every combination of the five effect booleans,
the if/elif chain of main applies exactly the single effect selected by
first-true-wins priority grayscale, sepia, negative, warm, cool; with
grayscale true the result is that of grayscale alone regardless of the
other four booleans, and with all five false the buffer passes through
unchanged. -/
theorem effect_priority_exclusive (g s n w c : Bool) (img : Img3) :
    applyEffects g s n w c img = applyEffect (selectEffect g s n w c) img ∧
    applyEffects true s n w c img = applyEffects true false false false false img ∧
    applyEffects false false false false false img = Buffer.color img := by
  refine ⟨?_, rfl, rfl⟩
  cases g <;> cases s <;> cases n <;> cases w <;> cases c <;> rfl

/-- C6: the neutral parameters are exact identities: brightness 0, contrast
0, blur 0 and channel deltas (0, 0, 0) each return the input buffer
sample-for-sample. -/
theorem neutral_parameters_identity (img : Img3) :
    adjust_brightness img 0 = img ∧ adjust_contrast img 0 = some img ∧
    apply_blur img 0 = img ∧ adjust_rgb_channels img 0 0 0 = img := by
  refine ⟨by simp [adjust_brightness], by simp [adjust_contrast],
    by simp [apply_blur], ?_⟩
  unfold adjust_rgb_channels
  exact mapPixels_eq_self fun row _ p _ => by simp [adjChan]

/-- C7: apply_negative maps every sample x to 255 - x and is an involution:
applied twice to a valid buffer it returns the input. -/
theorem negative_involution (img : Img3) (h : img.valid) :
    apply_negative img =
      mapPixels (fun p => (255 - p.1, 255 - p.2.1, 255 - p.2.2)) img ∧
    apply_negative (apply_negative img) = img := by
  refine ⟨rfl, ?_⟩
  unfold apply_negative
  rw [mapPixels_mapPixels]
  exact mapPixels_eq_self fun row hrow p hp => by
    have hv := h row hrow p hp
    obtain ⟨pb, pg, pr⟩ := p
    unfold validPix at hv
    dsimp only at hv ⊢
    simp only [bitwiseNot, Prod.mk.injEq]
    omega

/-- C7 witness: the involution evaluated on a concrete valid buffer. -/
theorem negative_involution_witness :
    apply_negative (apply_negative [[(10, 200, 255)]]) = [[(10, 200, 255)]] :=
  (negative_involution [[(10, 200, 255)]] (by decide)).2

/-- C8: for every even radius r greater than 0, apply_blur with radius r
behaves identically to apply_blur with radius r + 1: both promote to the
same odd Gaussian kernel size. -/
theorem blur_even_radius_promotion (img : Img3) (r : Nat)
    (he : r % 2 = 0) (hr : 0 < r) :
    apply_blur img r = apply_blur img (r + 1) := by
  unfold apply_blur
  have h1 : (r + 1) % 2 = 1 := by omega
  simp [hr, he, h1]

/-- C8 witness: radius 4 and radius 5 agree on a concrete buffer. -/
theorem blur_even_radius_promotion_witness :
    apply_blur [[(1, 2, 3)]] 4 = apply_blur [[(1, 2, 3)]] 5 :=
  blur_even_radius_promotion [[(1, 2, 3)]] 4 (by decide) (by decide)

/-- A 3 x 3 buffer with every pixel (B, G, R) = (100, 100, 100). -/
def uniformGray100 : Img3 :=
  List.replicate 3 (List.replicate 3 (100, 100, 100))

unseal Rat.add Rat.mul Rat.inv Rat.sub in
/-- C1: apply_sepia does not apply the 3x3 color-mixing matrix per pixel.
cv2.filter2D convolves each channel spatially with the kernel, so on a
uniform (100, 100, 100) buffer every output sample is
round(100 * 3.491) saturated to 255, whereas the per-pixel matrix stated
by the spec yields (B, G, R) = (94, 120, 135); the two disagree at every
pixel. -/
theorem sepia_filter2D_vs_matrix :
    apply_sepia uniformGray100 =
      List.replicate 3 (List.replicate 3 (255, 255, 255)) ∧
    sepiaSpecMatrix uniformGray100 =
      List.replicate 3 (List.replicate 3 (94, 120, 135)) ∧
    apply_sepia uniformGray100 ≠ sepiaSpecMatrix uniformGray100 :=
  ⟨by decide, by decide, by decide⟩

unseal Rat.add Rat.mul Rat.inv Rat.sub in
/-- C5 counterexample: contrast amount 150 lies outside the slider range
[-100, 100], yet adjust_contrast does not fail: it computes the stretch
(saturating a zero buffer to white) and raises no InvalidParameter. -/
theorem out_of_range_contrast_no_invalid_parameter :
    adjust_contrast [[(0, 0, 0)]] 150 = some [[(255, 255, 255)]] := by decide

/-- C5 amended: the transform functions perform no range validation and have
no InvalidParameter failure path; adjust_contrast fails only at amount 131,
where the formula divides by zero (a Python ZeroDivisionError), and
computes normally at every other amount, in range or not. -/
theorem adjust_contrast_fails_only_at_131 (img : Img3) (c : Int) :
    adjust_contrast img c = none ↔ c = 131 := by
  unfold adjust_contrast
  split_ifs with h1 h2 <;> simp <;> omega

/-- C4: for every amount in [-100, 100] other than 0, adjust_contrast maps
every sample x to clamp(f * x + 127 * (1 - f)) with
f = 131 * (amount + 127) / (127 * (131 - amount)), the linear stretch
around mid-gray 127 stated by the spec. -/
theorem adjust_contrast_linear_stretch (img : Img3) (c : Int)
    (h1 : -100 ≤ c) (h2 : c ≤ 100) (h3 : c ≠ 0) :
    adjust_contrast img c = some (contrastSpecStretch img c) := by
  have hne : ¬((131 : Int) - c = 0) := by omega
  unfold adjust_contrast contrastSpecStretch
  rw [if_pos h3, if_neg hne]
  unfold addWeighted mapPixels
  simp only [zipWith_self, zero_mul, add_zero]

unseal Rat.add Rat.mul Rat.inv Rat.sub in
/-- C4 witness: contrast 50 on a uniform (100, 100, 100) buffer matches the
spec stretch, both evaluating to 66 per sample. -/
theorem adjust_contrast_linear_stretch_witness :
    adjust_contrast [[(100, 100, 100)]] 50 = some [[(66, 66, 66)]] :=
  (adjust_contrast_linear_stretch [[(100, 100, 100)]] 50 (by decide) (by decide)
    (by decide)).trans (by decide)

lemma bgr2hsv_v_le_255 {p : Pix3} (h : validPix p) : (bgr2hsvPix p).2.2 ≤ 255 := by
  obtain ⟨pb, pg, pr⟩ := p
  have h1 : pb ≤ 255 := h.1
  have h2 : pg ≤ 255 := h.2.1
  have h3 : pr ≤ 255 := h.2.2
  simp only [bgr2hsvPix]
  omega

lemma brightMapV_eq_spec (b : Int) (v : Nat) (h1 : -100 ≤ b) (h2 : b ≤ 100)
    (h3 : b ≠ 0) (hv : v ≤ 255) : brightMapV b v = specBrightMap b v := by
  simp only [brightMapV, brightStepPos, brightStepNeg, specBrightMap]
  split_ifs <;> omega

/-- C3: for every valid buffer and every nonzero amount in [-100, 100],
the final_hsv buffer built inside adjust_brightness keeps the hue and
saturation channels bit-identical to those of the HSV conversion of the
input and changes only the value channel, mapping each value sample v to
255 when v exceeds 255 - amount and to v + amount otherwise for positive
amount, and to 0 when v is below -amount and to v - (-amount) otherwise
for negative amount; the result is then converted back to BGR. -/
theorem adjust_brightness_value_channel_spec (img : Img3) (b : Int)
    (hv : img.valid) (h1 : -100 ≤ b) (h2 : b ≤ 100) (h3 : b ≠ 0) :
    adjust_brightness img b = cvtColorHSV2BGR (brightnessFinalHSV img b) ∧
    brightnessFinalHSV img b =
      mapPixels (fun p => (p.1, p.2.1, specBrightMap b p.2.2))
        (cvtColorBGR2HSV img) := by
  constructor
  · unfold adjust_brightness
    rw [if_pos h3]
  · unfold brightnessFinalHSV
    apply mapPixels_congr
    intro row hrow p hp
    obtain ⟨row0, hrow0, rfl⟩ := List.mem_map.mp hrow
    obtain ⟨p0, hp0, rfl⟩ := List.mem_map.mp hp
    have hple : (bgr2hsvPix p0).2.2 ≤ 255 := bgr2hsv_v_le_255 (hv row0 hrow0 p0 hp0)
    rw [brightMapV_eq_spec b _ h1 h2 h3 hple]

unseal Rat.add Rat.mul Rat.inv Rat.sub in
/-- C3 witness: brightness 50 on the pixel (B, G, R) = (10, 20, 30), whose
HSV conversion is (15, 170, 30): hue and saturation stay 15 and 170 and
the value sample becomes 30 + 50 = 80. -/
theorem adjust_brightness_value_channel_spec_witness :
    brightnessFinalHSV [[(10, 20, 30)]] 50 = [[(15, 170, 80)]] :=
  ((adjust_brightness_value_channel_spec [[(10, 20, 30)]] 50 (by decide) (by decide)
    (by decide) (by decide)).2).trans (by decide)

/-- C10: for every nonzero amount in [-100, 100] and every 8-bit value
sample, the unguarded modulo-256 additions and subtractions inside
adjust_brightness never wrap: the preceding mask assignments restrict them
to samples whose results stay in [0, 255], so the value-channel map equals
exact saturating arithmetic. -/
theorem brightness_masked_ops_saturating (a : Int) (v : Nat)
    (h1 : -100 ≤ a) (h2 : a ≤ 100) (h3 : a ≠ 0) (hv : v ≤ 255) :
    (0 < a → brightMapV a v = min (v + a.toNat) 255) ∧
    (a < 0 → brightMapV a v = v - (-a).toNat) := by
  simp only [brightMapV, brightStepPos, brightStepNeg]
  constructor <;> intro ha <;> split_ifs <;> omega

/-- C10 witness: amount 60 on value sample 250 saturates to 255 through the
masked modulo-256 operations. -/
theorem brightness_masked_ops_saturating_witness :
    brightMapV 60 250 = min (250 + (60 : Int).toNat) 255 :=
  (brightness_masked_ops_saturating 60 250 (by decide) (by decide) (by decide)
    (by decide)).1 (by decide)

lemma range_map_getD (l : List (List α)) :
    (List.range l.length).map (fun y => (l.getD y []).length) = l.map List.length := by
  apply List.ext_getElem
  · simp
  · intro i h1 h2
    simp only [List.getElem_map, List.getElem_range]
    rw [List.getD_eq_getElem]

lemma dims_conv2D (kern : List (List ℚ)) (img : Img3) :
    dims (conv2D kern img) = dims img := by
  unfold dims conv2D
  simp only [List.length_map, List.length_range, List.map_map, Function.comp_def,
    Prod.mk.injEq, true_and]
  exact range_map_getD img

lemma dims_addWeighted (img : Img3) (a b c : ℚ) :
    dims (addWeighted img a img b c) = dims img := by
  unfold addWeighted
  simp only [zipWith_self]
  exact dims_map_map _ _

/-- C9: every transform preserves the height and the per-row widths of its
input buffer; apply_grayscale additionally returns a single-channel buffer
(one Nat sample per pixel, by its type) with unchanged spatial dimensions,
while every other transform keeps the three-channel pixel type. -/
theorem transforms_preserve_dims (img : Img3) (b c dr dg db : Int) (r : Nat) :
    dims (adjust_brightness img b) = dims img ∧
    dims ((adjust_contrast img c).getD img) = dims img ∧
    dims (apply_blur img r) = dims img ∧
    dims (adjust_rgb_channels img dr dg db) = dims img ∧
    dims (apply_grayscale img) = dims img ∧
    dims (apply_sepia img) = dims img ∧
    dims (apply_negative img) = dims img ∧
    dims (apply_warm img) = dims img ∧
    dims (apply_cool img) = dims img := by
  refine ⟨?_, ?_, ?_, ?_, ?_, ?_, ?_, ?_, ?_⟩
  · unfold adjust_brightness
    split <;>
      simp [cvtColorHSV2BGR, brightnessFinalHSV, cvtColorBGR2HSV, mapPixels, dims_map_map]
  · unfold adjust_contrast
    split_ifs <;> simp [dims_addWeighted]
  · unfold apply_blur
    split <;> simp [gaussianBlur, dims_conv2D]
  · exact dims_map_map _ _
  · exact dims_map_map _ _
  · exact dims_conv2D _ _
  · exact dims_map_map _ _
  · exact dims_map_map _ _
  · exact dims_map_map _ _

end PhotoManip
